import Mathlib

/-!
Verification of the Hangman game session controller (src/hangman.py).

The Python module keeps a single mutable dictionary in the session state:

  game: { word, guessed_letters, attempts, score,
          game_over, hint_used, fun_fact }

We embed it as an immutable record and translate each state-mutating
function of the source into a pure transition function on that record.
Python integers are modelled as Int (they may go negative), the word and
the guessed-letter list as List Char (a single-character guess checked
with the in operator is character membership), booleans as Bool.
External effects (the OpenAI call, time.sleep, the Firestore query) are
modelled as explicit oracle parameters.
-/

/-- The session game record, one field per key of the Python dict. -/
structure GameState where
  word : List Char
  guessed_letters : List Char
  attempts : Int
  score : Int
  game_over : Bool
  hint_used : Bool
  fun_fact : String
deriving DecidableEq, Repr

/-- Python: all(c in game[ word-key ] ... ) -- every character of the word
has been guessed.  (Mirrors line 99 of hangman.py.) -/
def wordComplete (word guessed : List Char) : Bool :=
  word.all (fun c => decide (c ∈ guessed))

/-- First half of check_guess (lines 93-96): record the guess and charge
an attempt when the letter is not in the word. -/
def applyGuess (s : GameState) (letter : Char) : GameState :=
  if letter ∈ s.guessed_letters then s
  else if letter ∈ s.word then
    { s with guessed_letters := s.guessed_letters ++ [letter] }
  else
    { s with guessed_letters := s.guessed_letters ++ [letter],
             attempts := s.attempts - 1 }

/-- The round-over condition of line 99: attempts exhausted or every
character of the word guessed. -/
def endCond (s : GameState) : Prop :=
  s.attempts ≤ 0 ∨ wordComplete s.word s.guessed_letters = true

instance (s : GameState) : Decidable (endCond s) := by
  unfold endCond; infer_instance

/-- Second half of check_guess (lines 98-102): evaluate the win/lose
condition, set game_over, and score the round when attempts > 0.  In the
source game_over is assigned before the score test; the assignment leaves
attempts and hint_used untouched, so the two writes are merged here. -/
def settle (s : GameState) : GameState :=
  if endCond s then
    if 0 < s.attempts then
      { s with game_over := true
             , score := s.attempts * 10 + (if s.hint_used = false then 5 else 0) }
    else { s with game_over := true }
  else s

/-- check_guess (lines 91-102): the two blocks run in sequence. -/
def checkGuess (s : GameState) (letter : Char) : GameState :=
  settle (applyGuess s letter)

/-- show_hint_section (lines 130-138), with the button pressed: guarded by
not game_over and not hint_used; inside, attempts > 2 buys the hint for
two attempts, otherwise only a warning is shown. -/
def purchaseHint (s : GameState) : GameState :=
  if s.game_over = false ∧ s.hint_used = false then
    if 2 < s.attempts then
      { s with attempts := s.attempts - 2, hint_used := true }
    else s
  else s

/-- new_game (lines 79-89): fresh state for a round.  The word comes from
the external word source and the fun fact from the hint provider; both are
parameters here. -/
def newGame (word : List Char) (funFact : String) : GameState :=
  { word := word
  , guessed_letters := []
  , attempts := 6
  , score := 0
  , game_over := false
  , hint_used := false
  , fun_fact := funFact }

/-- An in-round operation the presentation layer can dispatch. -/
inductive Op where
  | guess (letter : Char)
  | hint
deriving DecidableEq, Repr

def applyOp (s : GameState) : Op → GameState
  | Op.guess l => checkGuess s l
  | Op.hint => purchaseHint s

def applyOps (s : GameState) (ops : List Op) : GameState :=
  ops.foldl applyOp s

/-- States reachable within one round: new_game followed by any sequence
of guesses and hint purchases. -/
inductive Reachable (w : List Char) (ff : String) : GameState → Prop
  | init : Reachable w ff (newGame w ff)
  | guess {s : GameState} (l : Char) :
      Reachable w ff s → Reachable w ff (checkGuess s l)
  | hint {s : GameState} :
      Reachable w ff s → Reachable w ff (purchaseHint s)

/-- The in-round invariant established by new_game and preserved by
check_guess and the hint purchase. -/
def RoundInv (w : List Char) (s : GameState) : Prop :=
  s.word = w ∧
  (s.game_over = false → s.score = 0) ∧
  (s.game_over = false → 1 ≤ s.attempts) ∧
  (s.game_over = true → endCond s) ∧
  (s.game_over = true → 0 < s.attempts →
      s.score = s.attempts * 10 + (if s.hint_used = false then 5 else 0)) ∧
  (s.game_over = false → wordComplete s.word s.guessed_letters = true →
      (s.hint_used = false → 4 ≤ s.attempts) ∧
      (s.hint_used = true → 2 ≤ s.attempts))

/-- A sequence of letter guesses dispatched through check_guess. -/
def applyGuesses (s : GameState) (letters : List Char) : GameState :=
  letters.foldl checkGuess s

/-- The static fallback string of get_ai_content (line 46). -/
def aiFallback : String := "Temporary hint unavailable. Try guessing letters!"

/-- Observable outcome of a get_ai_content call: the returned string, how
many times the chat-completion request was attempted, and the sleeps
performed (one per failed attempt, each of 2 seconds). -/
structure AiOutcome where
  result : String
  attemptsMade : Nat
  sleeps : List Nat
deriving DecidableEq, Repr

/-- The retry loop of get_ai_content (lines 35-45): the oracle gives the
outcome of the i-th request, some response on success and none when the
call raises; each failure is reported and followed by time.sleep(2). -/
def aiLoop (oracle : Nat → Option String) (i : Nat) : Nat → AiOutcome
  | 0 => { result := aiFallback, attemptsMade := 0, sleeps := [] }
  | r + 1 =>
    match oracle i with
    | some answer => { result := answer, attemptsMade := 1, sleeps := [] }
    | none =>
      let rest := aiLoop oracle (i + 1) r
      { result := rest.result
      , attemptsMade := rest.attemptsMade + 1
      , sleeps := 2 :: rest.sleeps }

/-- get_ai_content (lines 33-46): for _ in range(max_retries) around the
request; falls through to the static fallback.  (The module later rebinds
the same name to the new-API version, lines 198-210, with identical
control flow.) -/
def get_ai_content (oracle : Nat → Option String) (max_retries : Nat := 3) :
    AiOutcome :=
  aiLoop oracle 0 max_retries

/-- A persisted leaderboard row (name and score; the server timestamp is
not observable through the return value of get_leaderboard). -/
structure ScoreEntry where
  name : String
  score : Int
deriving DecidableEq, Repr

/-- get_leaderboard (lines 57-64): the Firestore query, modelled as an
oracle from the limit to either the row list or a raised error; a raised
error is caught, reported, and turned into the empty list. -/
def get_leaderboard (queryOracle : Nat → Except String (List ScoreEntry))
    (limit : Nat := 10) : List ScoreEntry :=
  match queryOracle limit with
  | Except.ok docs => docs
  | Except.error _ => []

/-- A state whose round is over (score already settled at 35 = 3*10+5)
used to probe check_guess on finished rounds. -/
def overState : GameState :=
  { word := ['A'], guessed_letters := ['A'], attempts := 3, score := 35
  , game_over := true, hint_used := false, fun_fact := "" }

/-- A live state in which the word is already fully guessed but one wrong
guess remains possible: word "A" guessed, one attempt left. -/
def lastAttemptState : GameState :=
  { word := ['A'], guessed_letters := ['A'], attempts := 1, score := 0
  , game_over := false, hint_used := false, fun_fact := "" }

-- Sanity: the spec scenarios.

theorem scenario_python_win :
    applyOps (newGame "PYTHON".toList "") (("PYTHON".toList).map Op.guess) =
      { word := "PYTHON".toList, guessed_letters := "PYTHON".toList
      , attempts := 6, score := 65, game_over := true, hint_used := false
      , fun_fact := "" } := by decide

theorem scenario_cat_loss :
    applyOps (newGame "CAT".toList "") (("XQZJWV".toList).map Op.guess) =
      { word := "CAT".toList, guessed_letters := "XQZJWV".toList
      , attempts := 0, score := 0, game_over := true, hint_used := false
      , fun_fact := "" } := by decide

theorem scenario_hint_no_bonus :
    (applyOps (newGame "CAT".toList "") (Op.hint :: ("CAT".toList).map Op.guess)).score
      = 40 := by decide

theorem scenario_hint_rejected :
    purchaseHint { newGame "CAT".toList "" with attempts := 2 } =
      { newGame "CAT".toList "" with attempts := 2 } := by decide

-- Frame and shape lemmas for the two halves of check_guess.

theorem wordComplete_append {w g : List Char} (l : Char)
    (h : wordComplete w g = true) : wordComplete w (g ++ [l]) = true := by
  simp only [wordComplete, List.all_eq_true, decide_eq_true_eq] at *
  exact fun c hc => List.mem_append_left _ (h c hc)

theorem applyGuess_word (s : GameState) (l : Char) :
    (applyGuess s l).word = s.word := by
  unfold applyGuess; split_ifs <;> rfl

theorem applyGuess_score (s : GameState) (l : Char) :
    (applyGuess s l).score = s.score := by
  unfold applyGuess; split_ifs <;> rfl

theorem applyGuess_game_over (s : GameState) (l : Char) :
    (applyGuess s l).game_over = s.game_over := by
  unfold applyGuess; split_ifs <;> rfl

theorem applyGuess_hint_used (s : GameState) (l : Char) :
    (applyGuess s l).hint_used = s.hint_used := by
  unfold applyGuess; split_ifs <;> rfl

theorem applyGuess_fun_fact (s : GameState) (l : Char) :
    (applyGuess s l).fun_fact = s.fun_fact := by
  unfold applyGuess; split_ifs <;> rfl

theorem applyGuess_attempts_le (s : GameState) (l : Char) :
    s.attempts - 1 ≤ (applyGuess s l).attempts ∧
    (applyGuess s l).attempts ≤ s.attempts := by
  unfold applyGuess; split_ifs <;> constructor <;> simp

theorem applyGuess_guessed (s : GameState) (l : Char) :
    (applyGuess s l).guessed_letters = s.guessed_letters ∨
    (applyGuess s l).guessed_letters = s.guessed_letters ++ [l] := by
  unfold applyGuess; split_ifs <;> simp

theorem applyGuess_mem (h : l ∈ s.guessed_letters) : applyGuess s l = s := by
  unfold applyGuess; rw [if_pos h]

theorem endCond_applyGuess {s : GameState} (l : Char) (h : endCond s) :
    endCond (applyGuess s l) := by
  unfold endCond at *
  rcases h with h | h
  · left; have := (applyGuess_attempts_le s l).2; omega
  · right
    rw [applyGuess_word]
    rcases applyGuess_guessed s l with hg | hg <;> rw [hg]
    · exact h
    · exact wordComplete_append l h

theorem settle_not_end {s : GameState} (h : ¬ endCond s) : settle s = s := by
  unfold settle; rw [if_neg h]

theorem settle_win {s : GameState} (h : endCond s) (ha : 0 < s.attempts) :
    settle s = { s with game_over := true
                      , score := s.attempts * 10 +
                          (if s.hint_used = false then 5 else 0) } := by
  unfold settle; rw [if_pos h, if_pos ha]

theorem settle_lose {s : GameState} (h : endCond s) (ha : ¬ 0 < s.attempts) :
    settle s = { s with game_over := true } := by
  unfold settle; rw [if_pos h, if_neg ha]

-- The round invariant: established by new_game, preserved by check_guess
-- and by the hint purchase.

theorem roundInv_newGame (w : List Char) (ff : String) :
    RoundInv w (newGame w ff) := by
  simp [RoundInv, newGame]

theorem roundInv_settle {w : List Char} {t : GameState} (hword : t.word = w)
    (hs0 : t.game_over = false → t.score = 0)
    (hec : t.game_over = true → endCond t) :
    RoundInv w (settle t) := by
  by_cases he : endCond t
  · by_cases hpos : 0 < t.attempts
    · rw [settle_win he hpos]
      refine ⟨hword, ?_, ?_, ?_, ?_, ?_⟩
      · simp
      · simp
      · intro _; exact he
      · intro _ _; rfl
      · simp
    · rw [settle_lose he hpos]
      refine ⟨hword, ?_, ?_, ?_, ?_, ?_⟩
      · simp
      · simp
      · intro _; exact he
      · intro _ hp; exact absurd hp hpos
      · simp
  · rw [settle_not_end he]
    have hno := he
    unfold endCond at hno
    push_neg at hno
    refine ⟨hword, hs0, ?_, ?_, ?_, ?_⟩
    · intro _; omega
    · intro hg; exact absurd (hec hg) he
    · intro hg; exact absurd (hec hg) he
    · intro _ hcomp; exact absurd hcomp hno.2

theorem roundInv_checkGuess {w : List Char} {s : GameState}
    (h : RoundInv w s) (l : Char) : RoundInv w (checkGuess s l) := by
  obtain ⟨hw, hs0, ha1, hec, hsc, hcm⟩ := h
  unfold checkGuess
  apply roundInv_settle
  · rw [applyGuess_word, hw]
  · rw [applyGuess_game_over, applyGuess_score]; exact hs0
  · rw [applyGuess_game_over]
    exact fun hg => endCond_applyGuess l (hec hg)

theorem roundInv_purchaseHint {w : List Char} {s : GameState}
    (h : RoundInv w s) : RoundInv w (purchaseHint s) := by
  obtain ⟨hw, hs0, ha1, hec, hsc, hcm⟩ := h
  unfold purchaseHint
  split_ifs with hg ha
  · obtain ⟨hgo, hhu⟩ := hg
    refine ⟨hw, ?_, ?_, ?_, ?_, ?_⟩
    · intro _; exact hs0 hgo
    · intro _; show 1 ≤ s.attempts - 2; omega
    · intro hcontra; exact absurd hcontra (by simp [hgo])
    · intro hcontra; exact absurd hcontra (by simp [hgo])
    · intro _ hcomp
      refine ⟨?_, ?_⟩
      · intro hfalse; exact absurd hfalse (by simp)
      · intro _
        have h4 : 4 ≤ s.attempts := (hcm hgo hcomp).1 hhu
        show 2 ≤ s.attempts - 2
        omega
  · exact ⟨hw, hs0, ha1, hec, hsc, hcm⟩
  · exact ⟨hw, hs0, ha1, hec, hsc, hcm⟩

theorem reachable_roundInv {w : List Char} {ff : String} {s : GameState}
    (h : Reachable w ff s) : RoundInv w s := by
  induction h with
  | init => exact roundInv_newGame w ff
  | guess l _ ih => exact roundInv_checkGuess ih l
  | hint _ ih => exact roundInv_purchaseHint ih

-- settle changes only game_over and score; checkGuess-level frame facts.

theorem settle_word (s : GameState) : (settle s).word = s.word := by
  unfold settle; split_ifs <;> rfl

theorem settle_guessed (s : GameState) :
    (settle s).guessed_letters = s.guessed_letters := by
  unfold settle; split_ifs <;> rfl

theorem settle_attempts (s : GameState) : (settle s).attempts = s.attempts := by
  unfold settle; split_ifs <;> rfl

theorem settle_hint_used (s : GameState) :
    (settle s).hint_used = s.hint_used := by
  unfold settle; split_ifs <;> rfl

theorem settle_fun_fact (s : GameState) :
    (settle s).fun_fact = s.fun_fact := by
  unfold settle; split_ifs <;> rfl

theorem settle_game_over_of_end {s : GameState} (h : endCond s) :
    (settle s).game_over = true := by
  unfold settle; rw [if_pos h]; split_ifs <;> rfl

theorem endCond_settle (s : GameState) : endCond (settle s) ↔ endCond s := by
  unfold endCond
  rw [settle_attempts, settle_word, settle_guessed]

theorem checkGuess_word (s : GameState) (l : Char) :
    (checkGuess s l).word = s.word := by
  unfold checkGuess; rw [settle_word, applyGuess_word]

theorem checkGuess_hint_used (s : GameState) (l : Char) :
    (checkGuess s l).hint_used = s.hint_used := by
  unfold checkGuess; rw [settle_hint_used, applyGuess_hint_used]

theorem checkGuess_fun_fact (s : GameState) (l : Char) :
    (checkGuess s l).fun_fact = s.fun_fact := by
  unfold checkGuess; rw [settle_fun_fact, applyGuess_fun_fact]

theorem checkGuess_guessed_eq (s : GameState) (l : Char) :
    (checkGuess s l).guessed_letters = (applyGuess s l).guessed_letters := by
  unfold checkGuess; rw [settle_guessed]

theorem checkGuess_attempts_eq (s : GameState) (l : Char) :
    (checkGuess s l).attempts = (applyGuess s l).attempts := by
  unfold checkGuess; rw [settle_attempts]

theorem checkGuess_attempts_le (s : GameState) (l : Char) :
    (checkGuess s l).attempts ≤ s.attempts := by
  rw [checkGuess_attempts_eq]; exact (applyGuess_attempts_le s l).2

theorem checkGuess_game_over_mono {s : GameState} (l : Char)
    (h : s.game_over = true) : (checkGuess s l).game_over = true := by
  unfold checkGuess settle
  split_ifs <;> first
  | rfl
  | (rw [applyGuess_game_over]; exact h)

theorem purchaseHint_game_over (t : GameState) :
    (purchaseHint t).game_over = t.game_over := by
  unfold purchaseHint; split_ifs <;> rfl

theorem purchaseHint_attempts_le (s : GameState) :
    (purchaseHint s).attempts ≤ s.attempts := by
  unfold purchaseHint
  split_ifs
  · show s.attempts - 2 ≤ s.attempts; omega
  · exact le_refl _
  · exact le_refl _

theorem wordComplete_append_not_mem {w g : List Char} {l : Char}
    (hl : l ∉ w) (h : wordComplete w (g ++ [l]) = true) :
    wordComplete w g = true := by
  simp only [wordComplete, List.all_eq_true, decide_eq_true_eq,
    List.mem_append, List.mem_singleton] at *
  intro c hc
  rcases h c hc with h1 | h2
  · exact h1
  · subst h2; exact absurd hc hl

/-- From a reachable live state, a check_guess call that leaves the word
fully guessed leaves attempts positive: completing the word never costs
the last attempt, because a correct or repeated letter costs nothing and a
wrong letter can only leave the word complete if it already was, in which
case the invariant reserves at least two attempts. -/
theorem attempts_pos_of_complete {w : List Char} {ff : String}
    {s : GameState} (l : Char) (hr : Reachable w ff s)
    (hlive : s.game_over = false)
    (hcomp : wordComplete (checkGuess s l).word
        (checkGuess s l).guessed_letters = true) :
    0 < (checkGuess s l).attempts := by
  obtain ⟨hw, hs0, ha1, hec, hsc, hcm⟩ := reachable_roundInv hr
  rw [checkGuess_attempts_eq]
  rw [checkGuess_word, checkGuess_guessed_eq] at hcomp
  by_cases h1 : l ∈ s.guessed_letters
  · rw [applyGuess_mem h1]
    have := ha1 hlive; omega
  · by_cases h2 : l ∈ s.word
    · have ha : (applyGuess s l).attempts = s.attempts := by
        unfold applyGuess; rw [if_neg h1, if_pos h2]
      rw [ha]; have := ha1 hlive; omega
    · have ha : (applyGuess s l).attempts = s.attempts - 1 := by
        unfold applyGuess; rw [if_neg h1, if_neg h2]
      have hg : (applyGuess s l).guessed_letters =
          s.guessed_letters ++ [l] := by
        unfold applyGuess; rw [if_neg h1, if_neg h2]
      rw [hg] at hcomp
      have hcixed : wordComplete s.word s.guessed_letters = true :=
        wordComplete_append_not_mem h2 hcomp
      have hbound := hcm hlive hcixed
      rw [ha]
      cases hhu : s.hint_used
      · have := hbound.1 hhu; omega
      · have := hbound.2 hhu; omega

-- Claim theorems.

/-- C1: on every reachable live state, when a check_guess call ends the
round, a won round (every character of the word guessed) is scored as
attempts times 10 plus a bonus of 5 exactly when no hint was used, and a
round that is not won is left with score 0. -/
theorem C1_score_on_round_end {w : List Char} {ff : String} {s : GameState}
    (l : Char) (hr : Reachable w ff s) (hlive : s.game_over = false)
    (hend : (checkGuess s l).game_over = true) :
    (wordComplete (checkGuess s l).word (checkGuess s l).guessed_letters
        = true →
      (checkGuess s l).score = (checkGuess s l).attempts * 10 +
        (if (checkGuess s l).hint_used = false then 5 else 0)) ∧
    (wordComplete (checkGuess s l).word (checkGuess s l).guessed_letters
        = false →
      (checkGuess s l).score = 0) := by
  obtain ⟨hw, hs0, ha1, hec, hsc, hcm⟩ := reachable_roundInv hr
  have htgo : (applyGuess s l).game_over = false := by
    rw [applyGuess_game_over]; exact hlive
  have hendc : endCond (applyGuess s l) := by
    by_contra hno
    rw [checkGuess, settle_not_end hno, htgo] at hend
    exact Bool.noConfusion hend
  constructor
  · intro hcomp
    have hpos : 0 < (checkGuess s l).attempts :=
      attempts_pos_of_complete l hr hlive hcomp
    rw [checkGuess_attempts_eq] at hpos
    unfold checkGuess
    rw [settle_win hendc hpos]
  · intro hncomp
    rw [checkGuess_word, checkGuess_guessed_eq] at hncomp
    have hae : (applyGuess s l).attempts ≤ 0 := by
      rcases hendc with h | h
      · exact h
      · rw [applyGuess_word] at h
        rw [h] at hncomp
        exact Bool.noConfusion hncomp
    unfold checkGuess
    rw [settle_lose hendc (by omega)]
    show (applyGuess s l).score = 0
    rw [applyGuess_score]
    exact hs0 hlive

theorem C1_witness : (checkGuess (newGame ['A'] "") 'A').score = 65 := by
  have hr : Reachable ['A'] "" (newGame ['A'] "") := Reachable.init
  have h := C1_score_on_round_end 'A' hr rfl (by decide)
  have h2 := h.1 (by decide)
  rw [h2]; decide

/-- C2: after any check_guess call on a reachable in-round state, game_over
holds exactly when attempts are exhausted or every character of the word
has been guessed; the hint purchase never changes game_over, and new_game
starts it false, so check_guess is the only operation that sets it. -/
theorem C2_game_over_iff {w : List Char} {ff : String} {s : GameState}
    (l : Char) (hr : Reachable w ff s) :
    ((checkGuess s l).game_over = true ↔
      ((checkGuess s l).attempts ≤ 0 ∨
        wordComplete (checkGuess s l).word (checkGuess s l).guessed_letters
          = true)) ∧
    (∀ t : GameState, (purchaseHint t).game_over = t.game_over) ∧
    (∀ (w2 : List Char) (ff2 : String), (newGame w2 ff2).game_over = false) := by
  refine ⟨⟨?_, ?_⟩, purchaseHint_game_over, fun _ _ => rfl⟩
  · intro hgo
    obtain ⟨_, _, _, hec, _, _⟩ := reachable_roundInv (Reachable.guess l hr)
    exact hec hgo
  · intro hcond
    have hendc : endCond (applyGuess s l) := by
      rw [checkGuess_attempts_eq, checkGuess_word, checkGuess_guessed_eq]
        at hcond
      rw [← applyGuess_word s l] at hcond
      exact hcond
    unfold checkGuess
    exact settle_game_over_of_end hendc

theorem C2_witness :
    ((checkGuess (newGame ['A'] "") 'B').game_over = true ↔
      ((checkGuess (newGame ['A'] "") 'B').attempts ≤ 0 ∨
        wordComplete (checkGuess (newGame ['A'] "") 'B').word
          (checkGuess (newGame ['A'] "") 'B').guessed_letters = true)) ∧
    (∀ t : GameState, (purchaseHint t).game_over = t.game_over) ∧
    (∀ (w2 : List Char) (ff2 : String), (newGame w2 ff2).game_over = false) :=
  C2_game_over_iff 'B' Reachable.init

/-- C3 as stated is false on the code: from the state with word "A"
already fully guessed, one attempt left and the round still live, guessing
"B" simultaneously drops attempts to 0 and leaves every character of the
word guessed, yet the score stays 0 instead of the win-formula value. -/
theorem C3_counterexample :
    lastAttemptState.game_over = false ∧
    (checkGuess lastAttemptState 'B').game_over = true ∧
    (checkGuess lastAttemptState 'B').attempts ≤ 0 ∧
    wordComplete (checkGuess lastAttemptState 'B').word
      (checkGuess lastAttemptState 'B').guessed_letters = true ∧
    (checkGuess lastAttemptState 'B').score = 0 ∧
    (checkGuess lastAttemptState 'B').score ≠
      (checkGuess lastAttemptState 'B').attempts * 10 +
        (if (checkGuess lastAttemptState 'B').hint_used = false
          then 5 else 0) := by
  decide

/-- C3 amended: loss takes precedence, not win.  Whenever a check_guess
call leaves attempts at or below zero the score is left untouched (the
win formula fires only on a positive attempt count), even if every
character of the word is guessed at the same time; moreover, from a
reachable live state the conflict never arises, since a call that leaves
the word complete also leaves attempts positive. -/
theorem C3_amended_loss_precedence {w : List Char} {ff : String}
    (s t : GameState) (l m : Char) (hta : (checkGuess t m).attempts ≤ 0)
    (hr : Reachable w ff s) (hlive : s.game_over = false)
    (hcomp : wordComplete (checkGuess s l).word
        (checkGuess s l).guessed_letters = true) :
    (checkGuess t m).score = t.score ∧ 0 < (checkGuess s l).attempts := by
  refine ⟨?_, attempts_pos_of_complete l hr hlive hcomp⟩
  rw [checkGuess_attempts_eq] at hta
  by_cases he : endCond (applyGuess t m)
  · unfold checkGuess
    rw [settle_lose he (by omega)]
    show (applyGuess t m).score = t.score
    exact applyGuess_score t m
  · unfold checkGuess
    rw [settle_not_end he]
    exact applyGuess_score t m

theorem C3_amended_witness :
    ((checkGuess lastAttemptState 'B').attempts ≤ 0 ∧
      (checkGuess lastAttemptState 'B').score = lastAttemptState.score) ∧
    0 < (checkGuess (newGame ['A'] "") 'A').attempts := by
  have hr : Reachable ['A'] "" (newGame ['A'] "") := Reachable.init
  have h := C3_amended_loss_precedence (newGame ['A'] "") lastAttemptState
    'A' 'B' (by decide) hr rfl (by decide)
  exact ⟨⟨by decide, h.1⟩, h.2⟩

/-- C4 as stated is false on the code: check_guess never tests game_over,
so on the finished round overState a fresh guess still mutates the state
(the letter is appended, an attempt is charged and the score recomputed). -/
theorem C4_counterexample :
    overState.game_over = true ∧ checkGuess overState 'B' ≠ overState := by
  decide

/-- C4 amended: check_guess has no game_over guard.  On a finished round
it still never clears game_over and never changes the word, the hint flag
or the fun fact, and a call with an already guessed letter is a full no-op
on every reachable state; but a letter not yet guessed is processed as
usual even though the round is over. -/
theorem C4_amended_no_guard {w : List Char} {ff : String} {s : GameState}
    (l : Char) (hr : Reachable w ff s) (hover : s.game_over = true) :
    (checkGuess s l).game_over = true ∧
    (checkGuess s l).word = s.word ∧
    (checkGuess s l).hint_used = s.hint_used ∧
    (checkGuess s l).fun_fact = s.fun_fact ∧
    (l ∈ s.guessed_letters → checkGuess s l = s) := by
  obtain ⟨hw, hs0, ha1, hec, hsc, hcm⟩ := reachable_roundInv hr
  refine ⟨checkGuess_game_over_mono l hover, checkGuess_word s l,
    checkGuess_hint_used s l, checkGuess_fun_fact s l, ?_⟩
  intro hmem
  unfold checkGuess
  rw [applyGuess_mem hmem]
  have hendc : endCond s := hec hover
  by_cases hpos : 0 < s.attempts
  · rw [settle_win hendc hpos]
    have hscore := hsc hover hpos
    rcases s with ⟨wd, gl, a, sc, go, hu, fc⟩
    simp only at hover hscore ⊢
    rw [hover, hscore]
  · rw [settle_lose hendc hpos]
    rcases s with ⟨wd, gl, a, sc, go, hu, fc⟩
    simp only at hover ⊢
    rw [hover]

theorem C4_amended_witness :
    checkGuess (checkGuess (newGame ['A'] "") 'A') 'A' =
      checkGuess (newGame ['A'] "") 'A' := by
  have hr : Reachable ['A'] "" (checkGuess (newGame ['A'] "") 'A') :=
    Reachable.guess 'A' Reachable.init
  have h := C4_amended_no_guard 'A' hr (by decide)
  exact h.2.2.2.2 (by decide)

/-- C5: with the purchase guard satisfied (round live, no hint bought
yet), an attempt count at or below 2 makes the purchase a no-op, and
otherwise it costs exactly two attempts and sets hint_used while changing
nothing else; a repeated purchase is always a no-op, so attempts are never
decremented a second time. -/
theorem C5_purchase_hint (s : GameState)
    (hgo : s.game_over = false) (hhu : s.hint_used = false) :
    (s.attempts ≤ 2 → purchaseHint s = s) ∧
    (2 < s.attempts →
      purchaseHint s =
        { s with attempts := s.attempts - 2, hint_used := true }) ∧
    purchaseHint (purchaseHint s) = purchaseHint s := by
  refine ⟨?_, ?_, ?_⟩
  · intro hle
    unfold purchaseHint
    rw [if_pos ⟨hgo, hhu⟩, if_neg (by omega)]
  · intro hlt
    unfold purchaseHint
    rw [if_pos ⟨hgo, hhu⟩, if_pos hlt]
  · by_cases hlt : 2 < s.attempts
    · have h1 : purchaseHint s =
          { s with attempts := s.attempts - 2, hint_used := true } := by
        unfold purchaseHint
        rw [if_pos ⟨hgo, hhu⟩, if_pos hlt]
      rw [h1]
      unfold purchaseHint
      rw [if_neg (by simp)]
    · have h1 : purchaseHint s = s := by
        unfold purchaseHint
        rw [if_pos ⟨hgo, hhu⟩, if_neg hlt]
      rw [h1, h1]

theorem C5_witness :
    purchaseHint (newGame ['A'] "") =
      { newGame ['A'] "" with attempts := 4, hint_used := true } := by
  have h := C5_purchase_hint (newGame ['A'] "") rfl rfl
  have h2 := h.2.1 (by decide)
  rw [h2]
  decide

theorem applyOp_attempts_le (s : GameState) (op : Op) :
    (applyOp s op).attempts ≤ s.attempts := by
  cases op with
  | guess l => exact checkGuess_attempts_le s l
  | hint => exact purchaseHint_attempts_le s

/-- C6: over any sequence of in-round operations (letter guesses and hint
purchases) the attempt counter never increases. -/
theorem C6_attempts_nonincreasing (ops : List Op) (s : GameState) :
    (applyOps s ops).attempts ≤ s.attempts := by
  induction ops generalizing s with
  | nil => exact le_refl _
  | cons op rest ih =>
    calc (applyOps s (op :: rest)).attempts
        = (applyOps (applyOp s op) rest).attempts := rfl
      _ ≤ (applyOp s op).attempts := ih _
      _ ≤ s.attempts := applyOp_attempts_le s op

/-- C7: a check_guess call with a letter that was already guessed changes
neither the attempt counter nor the guessed-letter list. -/
theorem C7_repeat_guess_frame (s : GameState) (l : Char)
    (h : l ∈ s.guessed_letters) :
    (checkGuess s l).attempts = s.attempts ∧
    (checkGuess s l).guessed_letters = s.guessed_letters := by
  rw [checkGuess_attempts_eq, checkGuess_guessed_eq, applyGuess_mem h]
  exact ⟨rfl, rfl⟩

theorem C7_witness :
    'A' ∈ overState.guessed_letters ∧
    (checkGuess overState 'A').attempts = overState.attempts ∧
    (checkGuess overState 'A').guessed_letters =
      overState.guessed_letters :=
  ⟨by decide, C7_repeat_guess_frame overState 'A' (by decide)⟩

/-- C8: get_ai_content issues the chat-completion request at most three
times, every wait it performs is the fixed 2-second sleep (one after each
failed attempt), after three failures it returns the static fallback
string, and its result is always a string -- either some successful
response or the fallback -- so no failure ever reaches the caller. -/
theorem C8_retry_fallback (oracle : Nat → Option String) :
    (get_ai_content oracle).attemptsMade ≤ 3 ∧
    (∀ d ∈ (get_ai_content oracle).sleeps, d = 2) ∧
    ((∀ i < 3, oracle i = none) →
      (get_ai_content oracle).result = aiFallback ∧
      (get_ai_content oracle).attemptsMade = 3) ∧
    ((get_ai_content oracle).result = aiFallback ∨
      ∃ i, i < 3 ∧ oracle i = some (get_ai_content oracle).result) := by
  rcases h0 : oracle 0 with _ | a0
  · rcases h1 : oracle 1 with _ | a1
    · rcases h2 : oracle 2 with _ | a2
      · have hval : get_ai_content oracle =
            { result := aiFallback, attemptsMade := 3, sleeps := [2, 2, 2] } := by
          simp [get_ai_content, aiLoop, h0, h1, h2]
        rw [hval]
        refine ⟨by simp, by simp, fun _ => ⟨rfl, rfl⟩, Or.inl rfl⟩
      · have hval : get_ai_content oracle =
            { result := a2, attemptsMade := 3, sleeps := [2, 2] } := by
          simp [get_ai_content, aiLoop, h0, h1, h2]
        rw [hval]
        refine ⟨by simp, by simp, ?_, Or.inr ⟨2, by omega, h2⟩⟩
        intro hall
        rw [hall 2 (by omega)] at h2
        exact Option.noConfusion h2
    · have hval : get_ai_content oracle =
          { result := a1, attemptsMade := 2, sleeps := [2] } := by
        simp [get_ai_content, aiLoop, h0, h1]
      rw [hval]
      refine ⟨by simp, by simp, ?_, Or.inr ⟨1, by omega, h1⟩⟩
      intro hall
      rw [hall 1 (by omega)] at h1
      exact Option.noConfusion h1
  · have hval : get_ai_content oracle =
        { result := a0, attemptsMade := 1, sleeps := [] } := by
      simp [get_ai_content, aiLoop, h0]
    rw [hval]
    refine ⟨by simp, by simp, ?_, Or.inr ⟨0, by omega, h0⟩⟩
    intro hall
    rw [hall 0 (by omega)] at h0
    exact Option.noConfusion h0

theorem C8_witness :
    (get_ai_content (fun _ => none)).attemptsMade ≤ 3 ∧
    (∀ d ∈ (get_ai_content (fun _ => none)).sleeps, d = 2) ∧
    ((get_ai_content (fun _ => none)).result = aiFallback ∧
      (get_ai_content (fun _ => none)).attemptsMade = 3) ∧
    ((get_ai_content (fun _ => none)).result = aiFallback ∨
      ∃ i, i < 3 ∧ (none : Option String) =
        some (get_ai_content (fun _ => none)).result) := by
  have h := C8_retry_fallback (fun _ => none)
  exact ⟨h.1, h.2.1, h.2.2.1 (fun i _ => rfl), h.2.2.2⟩

theorem checkGuess_nodup {s : GameState} (l : Char)
    (h : s.guessed_letters.Nodup) :
    (checkGuess s l).guessed_letters.Nodup := by
  rw [checkGuess_guessed_eq]
  unfold applyGuess
  split_ifs with h1 h2
  · exact h
  · show (s.guessed_letters ++ [l]).Nodup
    simp [List.nodup_append, h, h1]
  · show (s.guessed_letters ++ [l]).Nodup
    simp [List.nodup_append, h, h1]

/-- C9: although guessed_letters is a Python list, check_guess only ever
appends a letter that is not yet present, so any sequence of guesses
starting from a duplicate-free list keeps it duplicate-free and the list
faithfully represents a set. -/
theorem C9_guessed_letters_nodup (s : GameState) (letters : List Char)
    (h : s.guessed_letters.Nodup) :
    (applyGuesses s letters).guessed_letters.Nodup := by
  induction letters generalizing s with
  | nil => exact h
  | cons l rest ih => exact ih _ (checkGuess_nodup l h)

theorem C9_witness :
    (newGame ['A', 'B'] "").guessed_letters.Nodup ∧
    (applyGuesses (newGame ['A', 'B'] "") ['A', 'A', 'C']).guessed_letters.Nodup :=
  ⟨by decide, C9_guessed_letters_nodup _ _ (by decide)⟩

/-- C10: when the Firestore query raises, get_leaderboard swallows the
exception and returns the empty list -- the same value a successful but
empty read produces, so the two cases are indistinguishable from the
return value alone. -/
theorem C10_leaderboard_error_empty
    (queryOracle : Nat → Except String (List ScoreEntry)) (limit : Nat)
    (e : String) (h : queryOracle limit = Except.error e) :
    get_leaderboard queryOracle limit = [] ∧
    get_leaderboard queryOracle limit =
      get_leaderboard (fun _ => Except.ok []) limit := by
  unfold get_leaderboard
  rw [h]
  exact ⟨rfl, rfl⟩

theorem C10_witness :
    get_leaderboard (fun _ => Except.error "db down") 10 = [] ∧
    get_leaderboard (fun _ => Except.error "db down") 10 =
      get_leaderboard (fun _ => Except.ok []) 10 :=
  C10_leaderboard_error_empty (fun _ => Except.error "db down") 10
    "db down" rfl
